import Mathlib

/-!
Shallow embedding of the tiddlywiki-mcp incremental embedding sync engine
and hybrid retrieval path, together with proofs of the specified
properties.  The definitions below are translated from the TypeScript
sources: the chunker from src/embeddings/ollama-client.ts, the vector
store and sync worker from src/embeddings/database.ts, and the search
handler from src/tools/search-tiddlers.ts.  External collaborators
(the document store, the embedding service, the tokenizer) are passed in
as parameters of an environment record, mirroring the interfaces the code
consumes.
-/

namespace TiddlyMcp

/-- Model of the whitespace class used by the JavaScript string trim and
the whitespace regex class: space, tab, newline, carriage return,
vertical tab, form feed. -/
def isJsSpace (c : Char) : Bool :=
  c == ' ' || c == '\t' || c == '\n' || c == '\r' || c == '\x0b' || c == '\x0c'

/-- Sentence-terminating punctuation recognized by the chunker regexes. -/
def isPunctChar (c : Char) : Bool :=
  c == '.' || c == '!' || c == '?'

/-- Drop leading whitespace, as the left half of the JavaScript trim. -/
def trimLeftChars (l : List Char) : List Char := l.dropWhile isJsSpace

/-- Drop trailing whitespace, as the right half of the JavaScript trim. -/
def trimRightChars (l : List Char) : List Char :=
  (l.reverse.dropWhile isJsSpace).reverse

/-- Model of the JavaScript built-in String.prototype.trim. -/
def jsTrim (s : String) : String := ⟨trimRightChars (trimLeftChars s.data)⟩

lemma dropWhile_idem (p : Char → Bool) (l : List Char) :
    (l.dropWhile p).dropWhile p = l.dropWhile p := by
  induction l with
  | nil => rfl
  | cons a l ih =>
    by_cases h : p a
    · simp [List.dropWhile_cons, h, ih]
    · simp [List.dropWhile_cons, h]

lemma length_dropWhile_le' (p : Char → Bool) (l : List Char) :
    (l.dropWhile p).length ≤ l.length := by
  induction l with
  | nil => simp
  | cons a l ih =>
    by_cases h : p a
    · simp only [List.dropWhile_cons, h, if_true]
      exact Nat.le_succ_of_le ih
    · simp [List.dropWhile_cons, h]

lemma dropWhile_cons_eq_self {p : Char → Bool} {a : Char} {t : List Char}
    (h : (a :: t).dropWhile p = a :: t) : p a = false := by
  by_contra hpa
  rw [Bool.not_eq_false] at hpa
  rw [List.dropWhile_cons, if_pos hpa] at h
  have hlen := congrArg List.length h
  have hle := length_dropWhile_le' p t
  simp only [List.length_cons] at hlen
  omega

lemma trimRightChars_prefix (l : List Char) : trimRightChars l <+: l := by
  unfold trimRightChars
  have h : l.reverse.dropWhile isJsSpace <:+ l.reverse := List.dropWhile_suffix _
  have h2 : (l.reverse.dropWhile isJsSpace).reverse <+: l.reverse.reverse :=
    List.reverse_prefix.mpr h
  simpa using h2

lemma trimLeftChars_trimRightChars_of_left_trimmed {l : List Char}
    (h : trimLeftChars l = l) :
    trimLeftChars (trimRightChars l) = trimRightChars l := by
  rcases hm : trimRightChars l with _ | ⟨a, m⟩
  · rfl
  · have hpre : trimRightChars l <+: l := trimRightChars_prefix l
    rw [hm] at hpre
    rcases hpre with ⟨t, ht⟩
    have hself : (a :: (m ++ t)).dropWhile isJsSpace = a :: (m ++ t) := by
      have : l = a :: (m ++ t) := by
        rw [← ht]; simp
      rw [← this]; exact h
    have hfa : isJsSpace a = false := dropWhile_cons_eq_self hself
    unfold trimLeftChars
    rw [List.dropWhile_cons, if_neg (by simp [hfa])]

lemma trimRightChars_idem (l : List Char) :
    trimRightChars (trimRightChars l) = trimRightChars l := by
  unfold trimRightChars
  simp [dropWhile_idem]

/-- The JavaScript trim is idempotent. -/
theorem jsTrim_idem (s : String) : jsTrim (jsTrim s) = jsTrim s := by
  unfold jsTrim
  congr 1
  have h1 : trimLeftChars (trimLeftChars s.data) = trimLeftChars s.data :=
    dropWhile_idem _ _
  have h2 := trimLeftChars_trimRightChars_of_left_trimmed h1
  rw [show (String.mk (trimRightChars (trimLeftChars s.data))).data
        = trimRightChars (trimLeftChars s.data) from rfl]
  rw [h2, trimRightChars_idem]

/-- Characterization of being a trimmed string: equal to the result of
trimming itself. -/
def IsTrimmed (s : String) : Prop := jsTrim s = s

/-- One pass of the paragraph splitter: the model of the JavaScript
text.split on a run of two or more newlines, tracking the accumulated
part in reverse and the length of the current newline run. -/
def paraGo : List Char → List Char → Nat → List (List Char)
  | [], acc, nl =>
    if nl ≥ 2 then [acc.reverse, []] else [(List.replicate nl '\n' ++ acc).reverse]
  | c :: rest, acc, nl =>
    if c = '\n' then paraGo rest acc (nl + 1)
    else if nl ≥ 2 then acc.reverse :: paraGo rest [c] 0
    else paraGo rest (c :: (List.replicate nl '\n' ++ acc)) 0

/-- Split text at blank lines, modelling the paragraph split regex of
chunkText in ollama-client.ts. -/
def splitParagraphs (text : String) : List String :=
  (paraGo text.data [] 0).map (fun l => ⟨l⟩)

/-- One pass of the sentence splitter: the model of the JavaScript
para.split on a run of sentence punctuation followed by whitespace.
The state holds the accumulated part in reverse, a pending punctuation
run in reverse, and whether a separator is currently being consumed. -/
def sentGo : List Char → List Char → List Char → Bool → List (List Char)
  | [], acc, ps, inSpace =>
    if inSpace then [acc.reverse, []] else [(ps ++ acc).reverse]
  | c :: rest, acc, ps, inSpace =>
    if inSpace then
      if isJsSpace c then sentGo rest acc [] true
      else if isPunctChar c then acc.reverse :: sentGo rest [] [c] false
      else acc.reverse :: sentGo rest [c] [] false
    else if ps ≠ [] then
      if isPunctChar c then sentGo rest acc (c :: ps) false
      else if isJsSpace c then sentGo rest acc [] true
      else sentGo rest (c :: (ps ++ acc)) [] false
    else
      if isPunctChar c then sentGo rest acc [c] false
      else sentGo rest (c :: acc) [] false

/-- Split an oversized paragraph at sentence boundaries, modelling the
sentence split regex of chunkText in ollama-client.ts. -/
def splitSentences (para : String) : List String :=
  (sentGo para.data [] [] false).map (fun l => ⟨l⟩)

/-- Whether a sentence already ends with terminal punctuation, modelling
the end-anchored punctuation regex test in chunkText. -/
def endsWithPunct (s : String) : Bool :=
  match s.data.getLast? with
  | some c => isPunctChar c
  | none => false

/-- One step of the greedy accumulation of sentences of an oversized
paragraph, from the inner loop of chunkText in ollama-client.ts.  The
state is the list of flushed chunks paired with the running sentence
chunk; tok is the external tokenizer counting tokens in a string. -/
def sentenceStep (tok : String → Nat) (maxTokens : Nat)
    (st : List String × String) (sentence : String) : List String × String :=
  let swp := sentence ++ (if endsWithPunct sentence then "" else ".")
  let testS := if st.2 ≠ "" then st.2 ++ " " ++ swp else swp
  if tok testS > maxTokens ∧ st.2 ≠ "" then (st.1 ++ [jsTrim st.2], swp)
  else (st.1, testS)

/-- One step of the greedy accumulation of paragraphs, from the outer
loop of chunkText in ollama-client.ts.  The state is the list of flushed
chunks paired with the running chunk. -/
def paraStep (tok : String → Nat) (maxTokens : Nat)
    (st : List String × String) (para : String) : List String × String :=
  let chunks := st.1
  let currentChunk := st.2
  let paraTokens := tok para
  let testChunk := if currentChunk ≠ "" then currentChunk ++ "\n\n" ++ para else para
  if tok testChunk > maxTokens ∧ currentChunk ≠ "" then
    (chunks ++ [jsTrim currentChunk], para)
  else if paraTokens > maxTokens then
    let chunks1 := if currentChunk ≠ "" then chunks ++ [jsTrim currentChunk] else chunks
    (splitSentences para).foldl (sentenceStep tok maxTokens) (chunks1, "")
  else (chunks, testChunk)

/-- The chunker, from OllamaClient.chunkText in ollama-client.ts.  The
external tokenizer of the source, the encode function of gpt-tokenizer,
is passed in as the parameter tok measuring the token count of a string.
The source calls this with maxTokens defaulted to 6000. -/
def chunkText (tok : String → Nat) (text : String) (maxTokens : Nat) : List String :=
  if tok text ≤ maxTokens then [text]
  else
    let paragraphs := splitParagraphs text
    let r := paragraphs.foldl (paraStep tok maxTokens) ([], "")
    let chunks := if r.2 ≠ "" then r.1 ++ [jsTrim r.2] else r.1
    chunks.filter (fun c => c.length > 0)

/-! ## Data model: document snapshots, chunk rows, the sync-status ledger -/

/-- A document snapshot, from the Tiddler interface of tiddlywiki-http.ts.
Optional fields model the fields that may be absent on the wire. -/
structure Tiddler where
  title : String
  text : Option String
  tags : Option String
  created : Option String
  modified : Option String
deriving Repr, DecidableEq

/-- One row of the sync_status table, from the SyncStatus interface of
database.ts.  The last_indexed wall-clock time is modelled as integer
milliseconds, the value the source reads back through Date getTime. -/
structure SyncStatus where
  tiddler_title : String
  last_modified : String
  last_indexed : Int
  total_chunks : Nat
  status : String
  error_message : Option String
deriving Repr, DecidableEq

/-- One chunk row: the embedding_metadata row joined with its vector in
entry_embeddings, as written by EmbeddingsDB.insertEmbedding.  Vector
components are opaque to every claim and modelled as integers. -/
structure ChunkRow where
  tiddler_title : String
  chunk_id : Nat
  embedding : List Int
  chunk_text : String
  created : String
  modified : String
  tags : String
deriving Repr, DecidableEq

/-- The persistent state of the vector store: the chunk-row table and
the sync-status ledger (keyed by tiddler_title, the primary key). -/
structure DBState where
  chunks : List ChunkRow
  statuses : List SyncStatus
deriving Repr, DecidableEq

/-- EmbeddingsDB.getSyncStatus: the SELECT by primary key. -/
def getSyncStatus (db : DBState) (title : String) : Option SyncStatus :=
  db.statuses.find? (fun st => st.tiddler_title = title)

/-- EmbeddingsDB.updateSyncStatus: the INSERT OR REPLACE upsert,
overwriting every field of the row with the given primary key and
stamping last_indexed with the current time. -/
def updateSyncStatus (db : DBState) (title lastModified : String)
    (totalChunks : Nat) (status : String) (errorMessage : Option String)
    (now : Int) : DBState :=
  { db with
    statuses :=
      { tiddler_title := title, last_modified := lastModified,
        last_indexed := now, total_chunks := totalChunks,
        status := status, error_message := errorMessage } ::
      db.statuses.filter (fun st => st.tiddler_title ≠ title) }

/-- EmbeddingsDB.insertEmbedding: appends one chunk row (the vector
insert plus the metadata insert sharing its rowid). -/
def insertEmbedding (db : DBState) (title : String) (chunkId : Nat)
    (emb : List Int) (chunkText : String)
    (created modified tags : String) : DBState :=
  { db with
    chunks := db.chunks ++
      [{ tiddler_title := title, chunk_id := chunkId, embedding := emb,
         chunk_text := chunkText, created := created, modified := modified,
         tags := tags }] }

/-- EmbeddingsDB.deleteEmbeddingsForTiddler: deletes every metadata row
and vector row of the title, and also its sync_status row. -/
def deleteEmbeddingsForTiddler (db : DBState) (title : String) : DBState :=
  { chunks := db.chunks.filter (fun r => r.tiddler_title ≠ title),
    statuses := db.statuses.filter (fun st => st.tiddler_title ≠ title) }

/-- The number of chunk rows currently owned by a title. -/
def chunkCountFor (db : DBState) (title : String) : Nat :=
  (db.chunks.filter (fun r => r.tiddler_title = title)).length

/-! ## The reconciliation loop (SyncWorker of database.ts) -/

/-- Sentinel stored in place of an absent modified timestamp,
MISSING_TIMESTAMP in database.ts. -/
def MISSING_TIMESTAMP : String := "00000000000000000"

/-- Retry cooldown for error-status documents, RETRY_ERROR_AFTER_MS in
SyncWorker.runSync: 24 hours in milliseconds. -/
def RETRY_ERROR_AFTER_MS : Int := 24 * 60 * 60 * 1000

/-- The JavaScript idiom normalizing a falsy modified field to the
sentinel: an absent value and the empty string both become the sentinel,
any other string passes through. -/
def normalizeModified (m : Option String) : String :=
  match m with
  | none => MISSING_TIMESTAMP
  | some s => if s = "" then MISSING_TIMESTAMP else s

/-- The JavaScript idiom defaulting a falsy string field to the empty
string, used for chunk metadata fields. -/
def orEmptyStr (m : Option String) : String := m.getD ""

/-- The document-intent prefixing convention applied by
OllamaClient.generateDocumentEmbeddings before the embedding call. -/
def docPrefixed (s : String) : String := "search_document: " ++ s

/-- The external collaborators consumed by one reconciliation cycle:
the health check result, the document listing, the per-title content
fetch (an error value models a thrown fetch, the ok-none value models an
absent document), the embedding call on a batch of prefixed chunk texts
(an error value models a rejected request carrying its message), and the
tokenizer. -/
structure SyncEnv where
  healthy : Bool
  listTiddlers : List Tiddler
  fetch : String → Except Unit (Option Tiddler)
  embed : List String → Except String (List (List Int))
  tok : String → Nat

/-- The outcome of indexing one document: the updated store, the status
string the source returns, and whether an embedding call was issued. -/
structure IndexOutcome where
  db : DBState
  result : String
  embedCalled : Bool
deriving Repr, DecidableEq

/-- The store insert loop of the success path of SyncWorker.indexTiddler:
row i gets chunk i and embedding i (an out-of-range embedding index is
modelled as the empty vector). -/
def insertChunks : DBState → String → List String → List (List Int) → Nat →
    String → String → String → DBState
  | db, _, [], _, _, _, _, _ => db
  | db, title, c :: rest, embs, i, created, modified, tags =>
    insertChunks (insertEmbedding db title i (embs.getD i []) c created modified tags)
      title rest embs (i + 1) created modified tags

/-- The non-empty-content tail of SyncWorker.indexTiddler, entered after
stale rows of the title were deleted: chunk the text, request document
embeddings, and either record the error or insert the rows and record
success.  Factoring this out makes the clean intermediate state of the
delete-then-insert window explicit. -/
def indexFromCleanState (env : SyncEnv) (now : Int) (full : Tiddler)
    (txt : String) (mid : DBState) : DBState × String :=
  let chunks := chunkText env.tok txt 6000
  match env.embed (chunks.map docPrefixed) with
  | .error msg =>
    (updateSyncStatus mid full.title (normalizeModified full.modified) 0
      "error" (some msg) now, "error")
  | .ok embs =>
    (updateSyncStatus
      (insertChunks mid full.title chunks embs 0 (orEmptyStr full.created)
        (orEmptyStr full.modified) (orEmptyStr full.tags))
      full.title (normalizeModified full.modified) chunks.length
      "indexed" none now, "indexed")

/-- SyncWorker.indexTiddler of database.ts: fetch the full content; on
absent or empty text record a terminal empty status for the metadata
title with the current normalized token; otherwise delete stale rows,
chunk, embed and either record the error (the inner catch) or insert the
rows and record success.  A thrown fetch (the outer catch) returns the
error result without touching the store. -/
def indexTiddler (env : SyncEnv) (now : Int) (t : Tiddler) (db : DBState) :
    IndexOutcome :=
  match env.fetch t.title with
  | .error _ => ⟨db, "error", false⟩
  | .ok none =>
    ⟨updateSyncStatus db t.title (normalizeModified t.modified) 0 "empty" none now,
      "empty", false⟩
  | .ok (some full) =>
    match full.text with
    | none =>
      ⟨updateSyncStatus db t.title (normalizeModified t.modified) 0 "empty" none now,
        "empty", false⟩
    | some txt =>
      if txt = "" then
        ⟨updateSyncStatus db t.title (normalizeModified t.modified) 0 "empty" none now,
          "empty", false⟩
      else
        let r := indexFromCleanState env now full txt
          (deleteEmbeddingsForTiddler db full.title)
        ⟨r.1, r.2, true⟩

/-- Whether one character list begins with another. -/
def beginsWith : List Char → List Char → Bool
  | [], _ => true
  | _ :: _, [] => false
  | a :: as, b :: bs => a == b && beginsWith as bs

/-- Whether a character list occurs inside another, the model of the
JavaScript String includes. -/
def containsSub (haystack needle : List Char) : Bool :=
  match haystack with
  | [] => needle.isEmpty
  | _ :: rest => beginsWith needle haystack || containsSub rest needle

/-- The title filter of SyncWorker.runSync dropping filesystem-path
artifacts: a leading path separator or a .tid extension anywhere. -/
def validTitle (title : String) : Bool :=
  !(beginsWith [ '/' ] title.data) && !(containsSub title.data [ '.', 't', 'i', 'd' ])

/-- The per-document decision of SyncWorker.runSync: index when no
status row exists, when the normalized modified token changed, or when
an error status has aged past the retry cooldown. -/
def shouldIndexTiddler (db : DBState) (now : Int) (t : Tiddler) : Bool :=
  let tiddlerModified := normalizeModified t.modified
  match getSyncStatus db t.title with
  | none => true
  | some st =>
    if st.last_modified ≠ tiddlerModified then true
    else if st.status = "error" then
      decide (now - st.last_indexed > RETRY_ERROR_AFTER_MS)
    else false

/-- The selection a cycle computes before processing anything: listed
documents surviving the title filter whose decision is to index. -/
def tiddlersToIndex (env : SyncEnv) (now : Int) (db : DBState) : List Tiddler :=
  (env.listTiddlers.filter (fun t => validTitle t.title)).filter
    (shouldIndexTiddler db now)

/-- The observable effects of one reconciliation cycle: the resulting
store, the titles for which a content fetch was issued in order, and the
number of embedding calls issued. -/
structure SyncResult where
  db : DBState
  fetched : List String
  embedCalls : Nat
deriving Repr, DecidableEq

/-- Processing one selected document inside the cycle, accumulating the
fetch and embedding-call record.  The concurrent batches of the source
(Promise.all over a batch, batches in sequence) are modelled as the
sequential processing of the selection; each document only touches its
own rows and status, so batch interleaving is not observable here. -/
def syncStep (env : SyncEnv) (now : Int) (acc : SyncResult) (t : Tiddler) :
    SyncResult :=
  let o := indexTiddler env now t acc.db
  { db := o.db,
    fetched := acc.fetched ++ [t.title],
    embedCalls := acc.embedCalls + (if o.embedCalled then 1 else 0) }

/-- SyncWorker.runSync of database.ts: skip everything when the health
check fails, otherwise list, filter, select, and process the selection. -/
def runSync (env : SyncEnv) (now : Int) (db : DBState) : SyncResult :=
  if !env.healthy then ⟨db, [], 0⟩
  else (tiddlersToIndex env now db).foldl (syncStep env now) ⟨db, [], 0⟩

/-! ## The hybrid query handler (search-tiddlers.ts) -/

/-- One nearest-neighbor result, from the SearchResult interface of
database.ts.  The distance is modelled as a rational. -/
structure SearchResult where
  tiddler_title : String
  chunk_id : Nat
  chunk_text : String
  created : String
  modified : String
  tags : String
  distance : ℚ
deriving Repr, DecidableEq

/-- The hybrid intersection step of handleSearchTiddlers: build the set
of titles matched by the structural filter and keep only the semantic
results whose title is a member, in their original order. -/
def hybridFilterResults (results : List SearchResult)
    (filterMatches : List Tiddler) : List SearchResult :=
  let filterTitles := filterMatches.map Tiddler.title
  results.filter (fun r => r.tiddler_title ∈ filterTitles)

/-- Response-size threshold, MAX_RESPONSE_TOKENS in search-tiddlers.ts. -/
def MAX_RESPONSE_TOKENS : Nat := 23000

/-- The reduced limit suggested by the size diagnostics: the floor of
the threshold divided by the average token count per item, computed in
exact arithmetic as the source computes it in floating point. -/
def suggestedLimitFor (tokenCount resultCount : Nat) : Nat :=
  Nat.floor ((MAX_RESPONSE_TOKENS : ℚ) / ((tokenCount : ℚ) / (resultCount : ℚ)))

/-- The content of the oversize diagnostic message: the actual match
count, the observed token count, the threshold it exceeded and the
suggested reduced limit. -/
structure SizeDiagnostic where
  matchCount : Nat
  tokenCount : Nat
  threshold : Nat
  suggestedLimit : Nat
deriving Repr, DecidableEq

/-- validateResponseSize of search-tiddlers.ts, used by the filter-only
mode: none when the serialized estimate is within the threshold,
otherwise the diagnostic.  The serialization plus tokenizer of the
source is the external estimate parameter. -/
def validateResponseSize {α : Type} (estimate : List α → Nat)
    (results : List α) : Option SizeDiagnostic :=
  let tokenCount := estimate results
  if tokenCount ≤ MAX_RESPONSE_TOKENS then none
  else
    some { matchCount := results.length, tokenCount := tokenCount,
           threshold := MAX_RESPONSE_TOKENS,
           suggestedLimit := suggestedLimitFor tokenCount results.length }

/-- What a search mode returns: the data, or the oversize diagnostic in
place of the data. -/
inductive SearchResponse (α : Type) where
  | data (results : List α)
  | oversize (d : SizeDiagnostic)
deriving Repr, DecidableEq

/-- The filter-only mode tail of handleSearchTiddlers: return the
diagnostic produced by validateResponseSize, or the results as data. -/
def filterModeRespond {α : Type} (estimate : List α → Nat)
    (results : List α) : SearchResponse α :=
  match validateResponseSize estimate results with
  | some d => .oversize d
  | none => .data results

/-- The semantic-mode size gate of handleSearchTiddlers (the inline
check after formatting): over the threshold produces the diagnostic with
the same suggested-limit computation, otherwise the data is returned. -/
def semanticModeRespond {α : Type} (estimate : List α → Nat)
    (results : List α) : SearchResponse α :=
  let tokenCount := estimate results
  if tokenCount > MAX_RESPONSE_TOKENS then
    .oversize { matchCount := results.length, tokenCount := tokenCount,
                threshold := MAX_RESPONSE_TOKENS,
                suggestedLimit := suggestedLimitFor tokenCount results.length }
  else .data results

/-! ## Helper lemmas about the store operations and the cycle -/

lemma getSyncStatus_updateSyncStatus_self (db : DBState)
    (title lm : String) (tc : Nat) (s : String) (em : Option String) (now : Int) :
    getSyncStatus (updateSyncStatus db title lm tc s em now) title =
      some { tiddler_title := title, last_modified := lm, last_indexed := now,
             total_chunks := tc, status := s, error_message := em } := by
  unfold getSyncStatus updateSyncStatus
  exact List.find?_cons_of_pos _ (by simp)

lemma getSyncStatus_delete_self (db : DBState) (title : String) :
    getSyncStatus (deleteEmbeddingsForTiddler db title) title = none := by
  unfold getSyncStatus deleteEmbeddingsForTiddler
  rw [List.find?_eq_none]
  intro st hst
  have := (List.mem_filter.mp hst).2
  simpa using this

lemma chunkCountFor_delete_self (db : DBState) (title : String) :
    chunkCountFor (deleteEmbeddingsForTiddler db title) title = 0 := by
  unfold chunkCountFor deleteEmbeddingsForTiddler
  simp only [List.length_eq_zero]
  rw [List.filter_eq_nil_iff]
  intro r hr
  have := (List.mem_filter.mp hr).2
  simpa using this

lemma chunks_updateSyncStatus (db : DBState) (title lm : String) (tc : Nat)
    (s : String) (em : Option String) (now : Int) :
    (updateSyncStatus db title lm tc s em now).chunks = db.chunks := rfl

lemma chunkCountFor_insertEmbedding_self (db : DBState) (title : String)
    (i : Nat) (e : List Int) (c cr m tg : String) :
    chunkCountFor (insertEmbedding db title i e c cr m tg) title =
      chunkCountFor db title + 1 := by
  unfold chunkCountFor insertEmbedding
  simp

lemma chunkCountFor_insertChunks_self (title : String) :
    ∀ (cs : List String) (db : DBState) (embs : List (List Int)) (i : Nat)
      (cr m tg : String),
      chunkCountFor (insertChunks db title cs embs i cr m tg) title =
        chunkCountFor db title + cs.length := by
  intro cs
  induction cs with
  | nil => intro db embs i cr m tg; rfl
  | cons c rest ih =>
    intro db embs i cr m tg
    rw [insertChunks, ih, chunkCountFor_insertEmbedding_self]
    simp only [List.length_cons]
    omega

lemma statuses_insertChunks (title : String) :
    ∀ (cs : List String) (db : DBState) (embs : List (List Int)) (i : Nat)
      (cr m tg : String),
      (insertChunks db title cs embs i cr m tg).statuses = db.statuses := by
  intro cs
  induction cs with
  | nil => intro db embs i cr m tg; rfl
  | cons c rest ih =>
    intro db embs i cr m tg
    rw [insertChunks, ih]
    rfl

lemma normalizeModified_ne_empty (m : Option String) : normalizeModified m ≠ "" := by
  unfold normalizeModified
  match m with
  | none => decide
  | some s =>
    by_cases h : s = ""
    · simp [h, MISSING_TIMESTAMP]
    · simp [h]

lemma foldl_syncStep_fetched (env : SyncEnv) (now : Int) :
    ∀ (l : List Tiddler) (acc : SyncResult),
      (l.foldl (syncStep env now) acc).fetched = acc.fetched ++ l.map Tiddler.title := by
  intro l
  induction l with
  | nil => intro acc; simp
  | cons t l ih =>
    intro acc
    rw [List.foldl_cons, ih]
    simp [syncStep]

lemma runSync_fetched_of_healthy (env : SyncEnv) (now : Int) (db : DBState)
    (h : env.healthy = true) :
    (runSync env now db).fetched = (tiddlersToIndex env now db).map Tiddler.title := by
  unfold runSync
  rw [h]
  simp [foldl_syncStep_fetched]

lemma mem_tiddlersToIndex (env : SyncEnv) (now : Int) (db : DBState) (t : Tiddler) :
    t ∈ tiddlersToIndex env now db ↔
      t ∈ env.listTiddlers ∧ validTitle t.title = true ∧
        shouldIndexTiddler db now t = true := by
  unfold tiddlersToIndex
  simp only [List.mem_filter]
  tauto

lemma shouldIndex_false_of_unchanged (db : DBState) (now : Int) (t : Tiddler)
    (st : SyncStatus) (h1 : getSyncStatus db t.title = some st)
    (h2 : st.last_modified = normalizeModified t.modified)
    (h3 : st.status = "indexed" ∨ st.status = "empty") :
    shouldIndexTiddler db now t = false := by
  unfold shouldIndexTiddler
  rw [h1]
  have hstatus : st.status ≠ "error" := by
    rcases h3 with h | h <;> simp [h]
  simp [h2, hstatus]

/-! ## Claim theorems -/

/-- C7: in hybrid mode the returned sequence is exactly the subsequence
of the semantic-only results whose titles appear in the structural
filter match set: it is a sublist of the semantic results (hence a
subset preserving the semantic distance ordering), every returned title
is in the match set, and membership is characterized exactly by
membership in the semantic results together with a matching title. -/
theorem c7_hybrid_intersection (results : List SearchResult)
    (filterMatches : List Tiddler) :
    List.Sublist (hybridFilterResults results filterMatches) results ∧
    (∀ r ∈ hybridFilterResults results filterMatches,
        r.tiddler_title ∈ filterMatches.map Tiddler.title) ∧
    (∀ r, r ∈ hybridFilterResults results filterMatches ↔
        r ∈ results ∧ r.tiddler_title ∈ filterMatches.map Tiddler.title) := by
  refine ⟨List.filter_sublist _, ?_, ?_⟩
  · intro r hr
    have h := (List.mem_filter.mp hr).2
    simpa using h
  · intro r
    constructor
    · intro hr
      have h := List.mem_filter.mp hr
      exact ⟨h.1, by simpa using h.2⟩
    · intro ⟨h1, h2⟩
      exact List.mem_filter.mpr ⟨h1, by simpa using h2⟩

/-- Witness for C7 at concrete result and filter lists: the result whose
title the filter matches is kept by the hybrid intersection. -/
theorem c7_witness :
    (⟨"A", 0, "t", "", "", "", 1⟩ : SearchResult) ∈
      hybridFilterResults
        [⟨"A", 0, "t", "", "", "", 1⟩, ⟨"B", 0, "u", "", "", "", 2⟩]
        [⟨"A", none, none, none, none⟩] :=
  ((c7_hybrid_intersection
      [⟨"A", 0, "t", "", "", "", 1⟩, ⟨"B", 0, "u", "", "", "", 2⟩]
      [⟨"A", none, none, none, none⟩]).2.2
    ⟨"A", 0, "t", "", "", "", 1⟩).mpr ⟨by decide, by decide⟩

/-- C4: a document with an error status and an unchanged normalized
token is selected for reprocessing exactly when the wall-clock time
since its last attempt strictly exceeds the 24-hour retry threshold. -/
theorem c4_error_retry_cooldown (env : SyncEnv) (db : DBState) (now : Int)
    (t : Tiddler) (st : SyncStatus)
    (h1 : getSyncStatus db t.title = some st)
    (h2 : st.last_modified = normalizeModified t.modified)
    (h3 : st.status = "error") :
    (shouldIndexTiddler db now t = true ↔
      now - st.last_indexed > 24 * 60 * 60 * 1000) ∧
    (t ∈ env.listTiddlers → validTitle t.title = true →
      (t ∈ tiddlersToIndex env now db ↔
        now - st.last_indexed > 24 * 60 * 60 * 1000)) := by
  have hiff : shouldIndexTiddler db now t = true ↔
      now - st.last_indexed > 24 * 60 * 60 * 1000 := by
    unfold shouldIndexTiddler
    rw [h1]
    simp [h2, h3, RETRY_ERROR_AFTER_MS]
  refine ⟨hiff, fun hmem hvalid => ?_⟩
  rw [mem_tiddlersToIndex]
  constructor
  · intro h
    exact hiff.mp h.2.2
  · intro h
    exact ⟨hmem, hvalid, hiff.mpr h⟩

/-- Witness for C4 at a concrete store: an error-status record stamped
at time 0 is selected again at time 86400001 (one millisecond past the
24-hour cooldown). -/
theorem c4_witness :
    shouldIndexTiddler
      ⟨[], [⟨"A", "T1", 0, 0, "error", some "boom"⟩]⟩ 86400001
      ⟨"A", none, none, none, some "T1"⟩ = true :=
  ((c4_error_retry_cooldown
      ⟨true, [], fun _ => .ok none, fun _ => .ok [], fun s => s.data.length⟩
      ⟨[], [⟨"A", "T1", 0, 0, "error", some "boom"⟩]⟩ 86400001
      ⟨"A", none, none, none, some "T1"⟩
      ⟨"A", "T1", 0, 0, "error", some "boom"⟩
      (by decide) (by decide) rfl).1).mpr (by decide)

/-- C3: whenever the stored token differs from the current normalized
token, the decision is to index regardless of the stored status, and a
listed document passing the title filter enters the selection of the
next cycle and is fetched when the cycle runs. -/
theorem c3_changed_token_reindexes (env : SyncEnv) (now : Int) (db : DBState)
    (t : Tiddler) (st : SyncStatus)
    (h1 : getSyncStatus db t.title = some st)
    (h2 : st.last_modified ≠ normalizeModified t.modified) :
    shouldIndexTiddler db now t = true ∧
    (t ∈ env.listTiddlers → validTitle t.title = true →
      t ∈ tiddlersToIndex env now db ∧
      (env.healthy = true → t.title ∈ (runSync env now db).fetched)) := by
  have hshould : shouldIndexTiddler db now t = true := by
    unfold shouldIndexTiddler
    rw [h1]
    simp [h2]
  refine ⟨hshould, fun hmem hvalid => ?_⟩
  have hsel : t ∈ tiddlersToIndex env now db :=
    (mem_tiddlersToIndex env now db t).mpr ⟨hmem, hvalid, hshould⟩
  refine ⟨hsel, fun hh => ?_⟩
  rw [runSync_fetched_of_healthy env now db hh]
  exact List.mem_map_of_mem Tiddler.title hsel

/-- Witness for C3: a store holding an error status with token T1 and a
listing carrying token T2 selects and fetches the document. -/
theorem c3_witness :
    shouldIndexTiddler ⟨[], [⟨"A", "T1", 0, 0, "error", some "boom"⟩]⟩ 5
        ⟨"A", none, none, none, some "T2"⟩ = true ∧
    "A" ∈ (runSync
        ⟨true, [⟨"A", none, none, none, some "T2"⟩],
          fun _ => .ok none, fun _ => .ok [], fun s => s.data.length⟩ 5
        ⟨[], [⟨"A", "T1", 0, 0, "error", some "boom"⟩]⟩).fetched := by
  have h := c3_changed_token_reindexes
    ⟨true, [⟨"A", none, none, none, some "T2"⟩],
      fun _ => .ok none, fun _ => .ok [], fun s => s.data.length⟩ 5
    ⟨[], [⟨"A", "T1", 0, 0, "error", some "boom"⟩]⟩
    ⟨"A", none, none, none, some "T2"⟩
    ⟨"A", "T1", 0, 0, "error", some "boom"⟩
    (by decide) (by decide)
  exact ⟨h.1, ((h.2 (by decide) (by decide)).2 rfl)⟩

/-- C2: a listed document whose stored token equals its current
normalized token and whose status is indexed or empty is not selected
and is never fetched by the cycle (under distinct listed titles); and
when every listed document is in that state the cycle issues no fetch
and no embedding call and leaves the store untouched, so a second cycle
issues none either. -/
theorem c2_unchanged_documents_skipped (env : SyncEnv) (now now2 : Int)
    (db : DBState) :
    (∀ t st, t ∈ env.listTiddlers →
       (env.listTiddlers.map Tiddler.title).Nodup →
       getSyncStatus db t.title = some st →
       st.last_modified = normalizeModified t.modified →
       (st.status = "indexed" ∨ st.status = "empty") →
       shouldIndexTiddler db now t = false ∧
       t.title ∉ (runSync env now db).fetched) ∧
    ((∀ t ∈ env.listTiddlers, validTitle t.title = true →
        ∃ st, getSyncStatus db t.title = some st ∧
          st.last_modified = normalizeModified t.modified ∧
          (st.status = "indexed" ∨ st.status = "empty")) →
      (runSync env now db).db = db ∧
      (runSync env now db).fetched = [] ∧
      (runSync env now db).embedCalls = 0 ∧
      (runSync env now2 (runSync env now db).db).fetched = [] ∧
      (runSync env now2 (runSync env now db).db).embedCalls = 0) := by
  constructor
  · intro t st hmem hnodup h1 h2 h3
    have hskip := shouldIndex_false_of_unchanged db now t st h1 h2 h3
    refine ⟨hskip, fun habs => ?_⟩
    by_cases hh : env.healthy = true
    · rw [runSync_fetched_of_healthy env now db hh] at habs
      rcases List.mem_map.mp habs with ⟨t', ht'mem, ht'eq⟩
      have ht'list := ((mem_tiddlersToIndex env now db t').mp ht'mem).1
      have : t' = t :=
        List.inj_on_of_nodup_map hnodup ht'list hmem ht'eq
      subst this
      have := ((mem_tiddlersToIndex env now db t').mp ht'mem).2.2
      rw [hskip] at this
      exact Bool.false_ne_true this
    · unfold runSync at habs
      rw [Bool.not_eq_true] at hh
      rw [hh] at habs
      simp at habs
  · intro hall
    have hsel : tiddlersToIndex env now db = [] := by
      unfold tiddlersToIndex
      rw [List.filter_eq_nil_iff]
      intro t hmem
      have h1 := (List.mem_filter.mp hmem).1
      have h2 := (List.mem_filter.mp hmem).2
      rcases hall t h1 (by simpa using h2) with ⟨st, ha, hb, hc⟩
      simp [shouldIndex_false_of_unchanged db now t st ha hb hc]
    have hrun : ∀ n : Int, runSync env n db = ⟨db, [], 0⟩ := by
      intro n
      unfold runSync
      by_cases hh : env.healthy = true
      · have : tiddlersToIndex env n db = [] := by
          unfold tiddlersToIndex at hsel ⊢
          rw [List.filter_eq_nil_iff] at hsel ⊢
          intro t ht
          have h1 := (List.mem_filter.mp ht).1
          have h2 := (List.mem_filter.mp ht).2
          rcases hall t h1 (by simpa using h2) with ⟨st, ha, hb, hc⟩
          simp [shouldIndex_false_of_unchanged db n t st ha hb hc]
        rw [hh, this]
        rfl
      · rw [Bool.not_eq_true] at hh
        rw [hh]
        rfl
    refine ⟨?_, ?_, ?_, ?_, ?_⟩ <;> rw [hrun now] <;> try rfl
    · rw [hrun now2]
    · rw [hrun now2]

/-- Witness for C2: one unchanged indexed document and one unchanged
empty document; the cycle fetches nothing, calls no embedding, leaves
the store as it was, and the repeated cycle does the same. -/
theorem c2_witness :
    (runSync
        ⟨true,
          [⟨"A", none, none, none, some "T1"⟩, ⟨"B", none, none, none, none⟩],
          fun _ => .ok none, fun _ => .ok [], fun s => s.data.length⟩ 7
        ⟨[], [⟨"A", "T1", 0, 3, "indexed", none⟩,
              ⟨"B", "00000000000000000", 0, 0, "empty", none⟩]⟩).fetched = [] ∧
    (runSync
        ⟨true,
          [⟨"A", none, none, none, some "T1"⟩, ⟨"B", none, none, none, none⟩],
          fun _ => .ok none, fun _ => .ok [], fun s => s.data.length⟩ 7
        ⟨[], [⟨"A", "T1", 0, 3, "indexed", none⟩,
              ⟨"B", "00000000000000000", 0, 0, "empty", none⟩]⟩).embedCalls = 0 := by
  have h := (c2_unchanged_documents_skipped
    ⟨true,
      [⟨"A", none, none, none, some "T1"⟩, ⟨"B", none, none, none, none⟩],
      fun _ => .ok none, fun _ => .ok [], fun s => s.data.length⟩ 7 8
    ⟨[], [⟨"A", "T1", 0, 3, "indexed", none⟩,
          ⟨"B", "00000000000000000", 0, 0, "empty", none⟩]⟩).2 (by
      intro t hmem hvalid
      simp only [List.mem_cons, List.not_mem_nil, or_false] at hmem
      rcases hmem with h | h <;> subst h
      · exact ⟨⟨"A", "T1", 0, 3, "indexed", none⟩, by decide, by decide, Or.inl rfl⟩
      · exact ⟨⟨"B", "00000000000000000", 0, 0, "empty", none⟩, by decide, by decide, Or.inr rfl⟩)
  exact ⟨h.2.1, h.2.2.1⟩

/-- C5: when the embedding call for a document fails, that document gets
an error status carrying the message with zero chunks recorded, the
procedure returns instead of raising, and the cycle still fetches every
selected document of the selection. -/
theorem c5_embed_failure_isolated (env : SyncEnv) (now : Int) (t full : Tiddler)
    (txt msg : String) (db : DBState)
    (hf : env.fetch t.title = .ok (some full))
    (ht : full.text = some txt) (hne : txt ≠ "")
    (he : env.embed ((chunkText env.tok txt 6000).map docPrefixed) = .error msg) :
    (indexTiddler env now t db).result = "error" ∧
    getSyncStatus (indexTiddler env now t db).db full.title =
      some { tiddler_title := full.title,
             last_modified := normalizeModified full.modified,
             last_indexed := now, total_chunks := 0,
             status := "error", error_message := some msg } ∧
    (env.healthy = true →
      (runSync env now db).fetched = (tiddlersToIndex env now db).map Tiddler.title) := by
  have hout : indexTiddler env now t db =
      ⟨(indexFromCleanState env now full txt
          (deleteEmbeddingsForTiddler db full.title)).1,
        (indexFromCleanState env now full txt
          (deleteEmbeddingsForTiddler db full.title)).2, true⟩ := by
    unfold indexTiddler
    rw [hf]
    dsimp only
    rw [ht]
    dsimp only
    rw [if_neg hne]
  have hclean : indexFromCleanState env now full txt
      (deleteEmbeddingsForTiddler db full.title) =
      (updateSyncStatus (deleteEmbeddingsForTiddler db full.title) full.title
        (normalizeModified full.modified) 0 "error" (some msg) now, "error") := by
    unfold indexFromCleanState
    dsimp only
    rw [he]
  refine ⟨?_, ?_, fun hh => runSync_fetched_of_healthy env now db hh⟩
  · rw [hout, hclean]
  · rw [hout, hclean]
    exact getSyncStatus_updateSyncStatus_self _ _ _ _ _ _ _

/-- Witness for C5: a store with two documents where the embedding call
fails for one; it is recorded as an error with the message, and both
selected documents are still fetched. -/
theorem c5_witness :
    (indexTiddler
        ⟨true, [⟨"A", none, none, none, some "T1"⟩],
          fun s => if s = "A" then .ok (some ⟨"A", some "x", none, none, some "T1"⟩) else .ok none,
          fun _ => .error "too long", fun s => s.data.length⟩ 9
        ⟨"A", none, none, none, some "T1"⟩ ⟨[], []⟩).result = "error" ∧
    getSyncStatus (indexTiddler
        ⟨true, [⟨"A", none, none, none, some "T1"⟩],
          fun s => if s = "A" then .ok (some ⟨"A", some "x", none, none, some "T1"⟩) else .ok none,
          fun _ => .error "too long", fun s => s.data.length⟩ 9
        ⟨"A", none, none, none, some "T1"⟩ ⟨[], []⟩).db "A" =
      some ⟨"A", "T1", 9, 0, "error", some "too long"⟩ := by
  have h := c5_embed_failure_isolated
    ⟨true, [⟨"A", none, none, none, some "T1"⟩],
      fun s => if s = "A" then .ok (some ⟨"A", some "x", none, none, some "T1"⟩) else .ok none,
      fun _ => .error "too long", fun s => s.data.length⟩ 9
    ⟨"A", none, none, none, some "T1"⟩ ⟨"A", some "x", none, none, some "T1"⟩
    "x" "too long" ⟨[], []⟩ rfl rfl (by decide) rfl
  exact ⟨h.1, h.2.1⟩

/-- Counterexample to C1 as stated: a document previously indexed with
two chunk rows whose new version has empty text.  The indexing procedure
records the terminal empty status with zero total chunks and the current
token, but the two stale chunk rows are not deleted, so an empty-status
title owns two chunk rows, contradicting both the claimed deletion and
the claimed chunk-count invariant for the empty status. -/
theorem c1_counterexample :
    (indexTiddler
        ⟨true, [⟨"A", none, none, none, some "T2"⟩],
          fun s => if s = "A" then .ok (some ⟨"A", some "", none, none, some "T2"⟩) else .ok none,
          fun _ => .ok [], fun s => s.data.length⟩ 100
        ⟨"A", none, none, none, some "T2"⟩
        ⟨[⟨"A", 0, [], "old chunk zero", "", "T1", ""⟩,
          ⟨"A", 1, [], "old chunk one", "", "T1", ""⟩],
         [⟨"A", "T1", 0, 2, "indexed", none⟩]⟩).result = "empty" ∧
    getSyncStatus (indexTiddler
        ⟨true, [⟨"A", none, none, none, some "T2"⟩],
          fun s => if s = "A" then .ok (some ⟨"A", some "", none, none, some "T2"⟩) else .ok none,
          fun _ => .ok [], fun s => s.data.length⟩ 100
        ⟨"A", none, none, none, some "T2"⟩
        ⟨[⟨"A", 0, [], "old chunk zero", "", "T1", ""⟩,
          ⟨"A", 1, [], "old chunk one", "", "T1", ""⟩],
         [⟨"A", "T1", 0, 2, "indexed", none⟩]⟩).db "A" =
      some ⟨"A", "T2", 100, 0, "empty", none⟩ ∧
    chunkCountFor (indexTiddler
        ⟨true, [⟨"A", none, none, none, some "T2"⟩],
          fun s => if s = "A" then .ok (some ⟨"A", some "", none, none, some "T2"⟩) else .ok none,
          fun _ => .ok [], fun s => s.data.length⟩ 100
        ⟨"A", none, none, none, some "T2"⟩
        ⟨[⟨"A", 0, [], "old chunk zero", "", "T1", ""⟩,
          ⟨"A", 1, [], "old chunk one", "", "T1", ""⟩],
         [⟨"A", "T1", 0, 2, "indexed", none⟩]⟩).db "A" = 2 := by
  refine ⟨rfl, ?_, rfl⟩
  decide

/-- C1 amended: on absent or empty content the procedure records the
terminal empty status with zero total chunks and the current normalized
token but leaves existing chunk rows untouched; the chunk-count
invariant holds for the indexed outcome (count equals the recorded
total) and for the error status written on an embedding failure
(count zero), while an empty status may coexist with stale rows. -/
theorem c1_amended_empty_keeps_rows (env : SyncEnv) (now : Int) (t : Tiddler)
    (db : DBState) :
    ((env.fetch t.title = .ok none ∨
        (∃ full, env.fetch t.title = .ok (some full) ∧
          (full.text = none ∨ full.text = some ""))) →
      (indexTiddler env now t db).db.chunks = db.chunks ∧
      getSyncStatus (indexTiddler env now t db).db t.title =
        some ⟨t.title, normalizeModified t.modified, now, 0, "empty", none⟩) ∧
    (∀ full txt embs, env.fetch t.title = .ok (some full) →
      full.text = some txt → txt ≠ "" →
      env.embed ((chunkText env.tok txt 6000).map docPrefixed) = .ok embs →
      ∃ st, getSyncStatus (indexTiddler env now t db).db full.title = some st ∧
        st.status = "indexed" ∧
        chunkCountFor (indexTiddler env now t db).db full.title = st.total_chunks) ∧
    (∀ full txt msg, env.fetch t.title = .ok (some full) →
      full.text = some txt → txt ≠ "" →
      env.embed ((chunkText env.tok txt 6000).map docPrefixed) = .error msg →
      ∃ st, getSyncStatus (indexTiddler env now t db).db full.title = some st ∧
        st.status = "error" ∧ st.total_chunks = 0 ∧
        chunkCountFor (indexTiddler env now t db).db full.title = 0) := by
  refine ⟨?_, ?_, ?_⟩
  · intro h
    have hempty : indexTiddler env now t db =
        ⟨updateSyncStatus db t.title (normalizeModified t.modified) 0 "empty" none now,
          "empty", false⟩ := by
      rcases h with h | ⟨full, hf, htext⟩
      · unfold indexTiddler
        rw [h]
      · unfold indexTiddler
        rw [hf]
        dsimp only
        rcases htext with ht | ht
        · rw [ht]
        · rw [ht]
          dsimp only
          rw [if_pos rfl]
    rw [hempty]
    exact ⟨rfl, getSyncStatus_updateSyncStatus_self _ _ _ _ _ _ _⟩
  · intro full txt embs hf ht hne he
    have hout : (indexTiddler env now t db).db =
        updateSyncStatus
          (insertChunks (deleteEmbeddingsForTiddler db full.title) full.title
            (chunkText env.tok txt 6000) embs 0 (orEmptyStr full.created)
            (orEmptyStr full.modified) (orEmptyStr full.tags))
          full.title (normalizeModified full.modified)
          (chunkText env.tok txt 6000).length "indexed" none now := by
      unfold indexTiddler
      rw [hf]
      dsimp only
      rw [ht]
      dsimp only
      rw [if_neg hne]
      dsimp only
      unfold indexFromCleanState
      dsimp only
      rw [he]
    refine ⟨⟨full.title, normalizeModified full.modified, now,
        (chunkText env.tok txt 6000).length, "indexed", none⟩, ?_, rfl, ?_⟩
    · rw [hout]
      exact getSyncStatus_updateSyncStatus_self _ _ _ _ _ _ _
    · rw [hout]
      show chunkCountFor
        (updateSyncStatus _ full.title _ _ "indexed" none now) full.title = _
      unfold chunkCountFor
      rw [chunks_updateSyncStatus]
      have := chunkCountFor_insertChunks_self full.title
        (chunkText env.tok txt 6000) (deleteEmbeddingsForTiddler db full.title)
        embs 0 (orEmptyStr full.created) (orEmptyStr full.modified)
        (orEmptyStr full.tags)
      unfold chunkCountFor at this
      rw [this]
      have h2 := chunkCountFor_delete_self db full.title
      unfold chunkCountFor at h2
      rw [h2]
      simp
  · intro full txt msg hf ht hne he
    have hout : (indexTiddler env now t db).db =
        updateSyncStatus (deleteEmbeddingsForTiddler db full.title) full.title
          (normalizeModified full.modified) 0 "error" (some msg) now := by
      unfold indexTiddler
      rw [hf]
      dsimp only
      rw [ht]
      dsimp only
      rw [if_neg hne]
      dsimp only
      unfold indexFromCleanState
      dsimp only
      rw [he]
    refine ⟨⟨full.title, normalizeModified full.modified, now, 0, "error",
        some msg⟩, ?_, rfl, rfl, ?_⟩
    · rw [hout]
      exact getSyncStatus_updateSyncStatus_self _ _ _ _ _ _ _
    · rw [hout]
      unfold chunkCountFor
      rw [chunks_updateSyncStatus]
      have := chunkCountFor_delete_self db full.title
      unfold chunkCountFor at this
      exact this

/-- Witness for the amended C1 at a concrete store: the empty branch
leaves the two stale chunk rows in place while recording the empty
status. -/
theorem c1_amended_witness :
    (indexTiddler
        ⟨true, [⟨"B", none, none, none, none⟩],
          fun _ => .ok none, fun _ => .ok [], fun s => s.data.length⟩ 3
        ⟨"B", none, none, none, none⟩
        ⟨[⟨"B", 0, [], "stale", "", "", ""⟩], []⟩).db.chunks =
      [⟨"B", 0, [], "stale", "", "", ""⟩] ∧
    getSyncStatus (indexTiddler
        ⟨true, [⟨"B", none, none, none, none⟩],
          fun _ => .ok none, fun _ => .ok [], fun s => s.data.length⟩ 3
        ⟨"B", none, none, none, none⟩
        ⟨[⟨"B", 0, [], "stale", "", "", ""⟩], []⟩).db "B" =
      some ⟨"B", "00000000000000000", 3, 0, "empty", none⟩ :=
  (c1_amended_empty_keeps_rows
      ⟨true, [⟨"B", none, none, none, none⟩],
        fun _ => .ok none, fun _ => .ok [], fun s => s.data.length⟩ 3
      ⟨"B", none, none, none, none⟩
      ⟨[⟨"B", 0, [], "stale", "", "", ""⟩], []⟩).1 (Or.inl rfl)

/-- C10: deleting a title removes both its chunk rows and its status
record, so the status reads back as absent and the chunk count is zero;
and the non-empty indexing path computes its final store from exactly
that clean intermediate state, exhibiting the window during re-indexing
in which rows and status are both gone before the new data is written. -/
theorem c10_delete_cascades_status (db : DBState) (title : String) :
    (getSyncStatus (deleteEmbeddingsForTiddler db title) title = none ∧
     chunkCountFor (deleteEmbeddingsForTiddler db title) title = 0) ∧
    (∀ env now t full txt, env.fetch t.title = .ok (some full) →
      full.text = some txt → txt ≠ "" →
      (indexTiddler env now t db).db =
        (indexFromCleanState env now full txt
          (deleteEmbeddingsForTiddler db full.title)).1) := by
  refine ⟨⟨getSyncStatus_delete_self db title,
    chunkCountFor_delete_self db title⟩, ?_⟩
  intro env now t full txt hf ht hne
  unfold indexTiddler
  rw [hf]
  dsimp only
  rw [ht]
  dsimp only
  rw [if_neg hne]

/-- Witness for C10 at a concrete store holding a chunk row and a status
record for the title: after the delete both read back as absent, and the
indexing path factors through that state. -/
theorem c10_witness :
    getSyncStatus
      (deleteEmbeddingsForTiddler
        ⟨[⟨"W", 0, [], "w", "", "", ""⟩], [⟨"W", "T1", 0, 1, "indexed", none⟩]⟩
        "W") "W" = none ∧
    chunkCountFor
      (deleteEmbeddingsForTiddler
        ⟨[⟨"W", 0, [], "w", "", "", ""⟩], [⟨"W", "T1", 0, 1, "indexed", none⟩]⟩
        "W") "W" = 0 ∧
    (indexTiddler
        ⟨true, [⟨"W", none, none, none, some "T2"⟩],
          fun s => if s = "W" then .ok (some ⟨"W", some "y", none, none, some "T2"⟩) else .ok none,
          fun _ => .ok [[1]], fun s => s.data.length⟩ 11
        ⟨"W", none, none, none, some "T2"⟩
        ⟨[⟨"W", 0, [], "w", "", "", ""⟩], [⟨"W", "T1", 0, 1, "indexed", none⟩]⟩).db =
      (indexFromCleanState
        ⟨true, [⟨"W", none, none, none, some "T2"⟩],
          fun s => if s = "W" then .ok (some ⟨"W", some "y", none, none, some "T2"⟩) else .ok none,
          fun _ => .ok [[1]], fun s => s.data.length⟩ 11
        ⟨"W", some "y", none, none, some "T2"⟩ "y"
        (deleteEmbeddingsForTiddler
          ⟨[⟨"W", 0, [], "w", "", "", ""⟩], [⟨"W", "T1", 0, 1, "indexed", none⟩]⟩
          "W")).1 := by
  have h := c10_delete_cascades_status
    ⟨[⟨"W", 0, [], "w", "", "", ""⟩], [⟨"W", "T1", 0, 1, "indexed", none⟩]⟩ "W"
  exact ⟨h.1.1, h.1.2,
    h.2 ⟨true, [⟨"W", none, none, none, some "T2"⟩],
        fun s => if s = "W" then .ok (some ⟨"W", some "y", none, none, some "T2"⟩) else .ok none,
        fun _ => .ok [[1]], fun s => s.data.length⟩ 11
      ⟨"W", none, none, none, some "T2"⟩
      ⟨"W", some "y", none, none, some "T2"⟩ "y" rfl rfl (by decide)⟩

lemma ledger_nonempty_updateSyncStatus (db : DBState) (title lm : String)
    (tc : Nat) (s : String) (em : Option String) (now : Int)
    (hlm : lm ≠ "") (hinv : ∀ st ∈ db.statuses, st.last_modified ≠ "") :
    ∀ st ∈ (updateSyncStatus db title lm tc s em now).statuses,
      st.last_modified ≠ "" := by
  intro st hst
  unfold updateSyncStatus at hst
  rcases List.mem_cons.mp hst with h | h
  · rw [h]
    exact hlm
  · exact hinv st (List.mem_of_mem_filter h)

lemma ledger_nonempty_indexFromCleanState (env : SyncEnv) (now : Int)
    (full : Tiddler) (txt : String) (mid : DBState)
    (hinv : ∀ st ∈ mid.statuses, st.last_modified ≠ "") :
    ∀ st ∈ (indexFromCleanState env now full txt mid).1.statuses,
      st.last_modified ≠ "" := by
  unfold indexFromCleanState
  dsimp only
  cases he : env.embed ((chunkText env.tok txt 6000).map docPrefixed) with
  | error msg =>
    exact ledger_nonempty_updateSyncStatus _ _ _ _ _ _ _
      (normalizeModified_ne_empty _) hinv
  | ok embs =>
    refine ledger_nonempty_updateSyncStatus _ _ _ _ _ _ _
      (normalizeModified_ne_empty _) ?_
    rw [statuses_insertChunks]
    exact hinv

lemma ledger_nonempty_indexTiddler (env : SyncEnv) (now : Int) (t : Tiddler)
    (db : DBState) (hinv : ∀ st ∈ db.statuses, st.last_modified ≠ "") :
    ∀ st ∈ (indexTiddler env now t db).db.statuses, st.last_modified ≠ "" := by
  unfold indexTiddler
  cases hfetch : env.fetch t.title with
  | error e => exact hinv
  | ok r =>
    cases r with
    | none =>
      exact ledger_nonempty_updateSyncStatus _ _ _ _ _ _ _
        (normalizeModified_ne_empty _) hinv
    | some full =>
      dsimp only
      cases htext : full.text with
      | none =>
        exact ledger_nonempty_updateSyncStatus _ _ _ _ _ _ _
          (normalizeModified_ne_empty _) hinv
      | some txt =>
        dsimp only
        by_cases hne : txt = ""
        · rw [if_pos hne]
          exact ledger_nonempty_updateSyncStatus _ _ _ _ _ _ _
            (normalizeModified_ne_empty _) hinv
        · rw [if_neg hne]
          refine ledger_nonempty_indexFromCleanState env now full txt _ ?_
          intro st hst
          exact hinv st (List.mem_of_mem_filter hst)

lemma ledger_nonempty_foldl (env : SyncEnv) (now : Int) :
    ∀ (l : List Tiddler) (acc : SyncResult),
      (∀ st ∈ acc.db.statuses, st.last_modified ≠ "") →
      ∀ st ∈ (l.foldl (syncStep env now) acc).db.statuses,
        st.last_modified ≠ "" := by
  intro l
  induction l with
  | nil => intro acc h; exact h
  | cons t l ih =>
    intro acc h
    rw [List.foldl_cons]
    refine ih _ ?_
    show ∀ st ∈ (syncStep env now acc t).db.statuses, st.last_modified ≠ ""
    unfold syncStep
    exact ledger_nonempty_indexTiddler env now t acc.db h

/-- C6: every status record a cycle writes has a non-empty stored token
(the sentinel replaces absent and empty ones), and for a document whose
modified token is absent, a processing attempt that does not throw on
fetch leaves a record storing exactly the all-zero sentinel; after a
successful indexed or empty outcome, a later cycle in which the token is
still absent does not select the document again. -/
theorem c6_sentinel_normalization (env : SyncEnv) (now now2 : Int)
    (t : Tiddler) (db : DBState) :
    ((∀ st ∈ db.statuses, st.last_modified ≠ "") →
      ∀ st ∈ (runSync env now db).db.statuses, st.last_modified ≠ "") ∧
    (t.modified = none →
      env.fetch t.title ≠ .error () →
      (∀ full, env.fetch t.title = .ok (some full) →
        full.title = t.title ∧ full.modified = none) →
      (∃ st, getSyncStatus (indexTiddler env now t db).db t.title = some st ∧
        st.last_modified = MISSING_TIMESTAMP) ∧
      (((indexTiddler env now t db).result = "indexed" ∨
          (indexTiddler env now t db).result = "empty") →
        shouldIndexTiddler (indexTiddler env now t db).db now2 t = false)) := by
  constructor
  · intro hinv
    unfold runSync
    by_cases hh : env.healthy = true
    · rw [hh]
      exact ledger_nonempty_foldl env now _ _ hinv
    · rw [Bool.not_eq_true] at hh
      rw [hh]
      exact hinv
  · intro hmod hnothrow hfull
    have hsent : normalizeModified t.modified = MISSING_TIMESTAMP := by
      rw [hmod]; rfl
    have hemptyGoal : ∀ ndb : DBState,
        getSyncStatus ndb t.title =
          some ⟨t.title, normalizeModified t.modified, now, 0, "empty", none⟩ →
        (∃ st, getSyncStatus ndb t.title = some st ∧
          st.last_modified = MISSING_TIMESTAMP) ∧
        shouldIndexTiddler ndb now2 t = false := by
      intro ndb hget
      exact ⟨⟨_, hget, hsent⟩,
        shouldIndex_false_of_unchanged ndb now2 t _ hget rfl (Or.inr rfl)⟩
    cases hfetch : env.fetch t.title with
    | error e =>
      cases e
      exact absurd hfetch hnothrow
    | ok r =>
      cases r with
      | none =>
        have hout : indexTiddler env now t db =
            ⟨updateSyncStatus db t.title (normalizeModified t.modified) 0
              "empty" none now, "empty", false⟩ := by
          unfold indexTiddler
          rw [hfetch]
        rw [hout]
        have h := hemptyGoal _ (getSyncStatus_updateSyncStatus_self db t.title
          (normalizeModified t.modified) 0 "empty" none now)
        exact ⟨h.1, fun _ => h.2⟩
      | some full =>
        obtain ⟨hft, hfm⟩ := hfull full hfetch
        have hfsent : normalizeModified full.modified = MISSING_TIMESTAMP := by
          rw [hfm]; rfl
        cases htext : full.text with
        | none =>
          have hout : indexTiddler env now t db =
              ⟨updateSyncStatus db t.title (normalizeModified t.modified) 0
                "empty" none now, "empty", false⟩ := by
            unfold indexTiddler
            rw [hfetch]
            dsimp only
            rw [htext]
          rw [hout]
          have h := hemptyGoal _ (getSyncStatus_updateSyncStatus_self db t.title
            (normalizeModified t.modified) 0 "empty" none now)
          exact ⟨h.1, fun _ => h.2⟩
        | some txt =>
          by_cases hne : txt = ""
          · have hout : indexTiddler env now t db =
                ⟨updateSyncStatus db t.title (normalizeModified t.modified) 0
                  "empty" none now, "empty", false⟩ := by
              unfold indexTiddler
              rw [hfetch]
              dsimp only
              rw [htext]
              dsimp only
              rw [if_pos hne]
            rw [hout]
            have h := hemptyGoal _ (getSyncStatus_updateSyncStatus_self db t.title
              (normalizeModified t.modified) 0 "empty" none now)
            exact ⟨h.1, fun _ => h.2⟩
          · have hout : indexTiddler env now t db =
                ⟨(indexFromCleanState env now full txt
                    (deleteEmbeddingsForTiddler db full.title)).1,
                  (indexFromCleanState env now full txt
                    (deleteEmbeddingsForTiddler db full.title)).2, true⟩ := by
              unfold indexTiddler
              rw [hfetch]
              dsimp only
              rw [htext]
              dsimp only
              rw [if_neg hne]
            rw [hout]
            unfold indexFromCleanState
            dsimp only
            cases he : env.embed ((chunkText env.tok txt 6000).map docPrefixed) with
            | error msg =>
              dsimp only
              rw [hft, hfsent]
              have hget := getSyncStatus_updateSyncStatus_self
                (deleteEmbeddingsForTiddler db t.title) t.title
                MISSING_TIMESTAMP 0 "error" (some msg) now
              refine ⟨⟨_, hget, rfl⟩, ?_⟩
              intro hres
              rcases hres with h | h <;> simp at h
            | ok embs =>
              dsimp only
              rw [hft, hfsent]
              have hget := getSyncStatus_updateSyncStatus_self
                (insertChunks (deleteEmbeddingsForTiddler db t.title)
                  t.title (chunkText env.tok txt 6000) embs 0
                  (orEmptyStr full.created) (orEmptyStr full.modified)
                  (orEmptyStr full.tags))
                t.title MISSING_TIMESTAMP
                (chunkText env.tok txt 6000).length "indexed" none now
              refine ⟨⟨_, hget, rfl⟩, ?_⟩
              intro _
              refine shouldIndex_false_of_unchanged _ now2 t _ hget ?_ (Or.inl rfl)
              rw [hsent]

/-- Witness for C6: a document with no modified token is recorded under
the sentinel and the next cycle does not select it. -/
theorem c6_witness :
    (∃ st, getSyncStatus (indexTiddler
        ⟨true, [⟨"N", none, none, none, none⟩],
          fun s => if s = "N" then .ok (some ⟨"N", some "hello", none, none, none⟩) else .ok none,
          fun _ => .ok [[2]], fun s => s.data.length⟩ 4
        ⟨"N", none, none, none, none⟩ ⟨[], []⟩).db "N" = some st ∧
      st.last_modified = "00000000000000000") ∧
    shouldIndexTiddler (indexTiddler
        ⟨true, [⟨"N", none, none, none, none⟩],
          fun s => if s = "N" then .ok (some ⟨"N", some "hello", none, none, none⟩) else .ok none,
          fun _ => .ok [[2]], fun s => s.data.length⟩ 4
        ⟨"N", none, none, none, none⟩ ⟨[], []⟩).db 5
      ⟨"N", none, none, none, none⟩ = false := by
  have h := (c6_sentinel_normalization
    ⟨true, [⟨"N", none, none, none, none⟩],
      fun s => if s = "N" then .ok (some ⟨"N", some "hello", none, none, none⟩) else .ok none,
      fun _ => .ok [[2]], fun s => s.data.length⟩ 4 5
    ⟨"N", none, none, none, none⟩ ⟨[], []⟩).2 rfl
    (by intro hc; exact Except.noConfusion hc)
    (by
      intro full hf
      injection hf with h1
      injection h1 with h2
      rw [← h2]
      exact ⟨rfl, rfl⟩)
  exact ⟨h.1, h.2 (Or.inl (by decide))⟩

/-- C8: in both the filter mode and the semantic mode, a result set
whose serialized token estimate exceeds the 23000-token threshold is
never returned as data; the diagnostic carries the actual match count,
the observed token count, the threshold, and a suggested limit equal to
the floor of the threshold divided by the average tokens per item, which
in integer terms is the threshold times the result count divided by the
token count; at or under the threshold the data is returned. -/
theorem c8_response_budget (α : Type) (estimate : List α → Nat)
    (results : List α) :
    (estimate results ≤ MAX_RESPONSE_TOKENS →
      filterModeRespond estimate results = .data results ∧
      semanticModeRespond estimate results = .data results) ∧
    (estimate results > MAX_RESPONSE_TOKENS →
      filterModeRespond estimate results =
        .oversize ⟨results.length, estimate results, MAX_RESPONSE_TOKENS,
          suggestedLimitFor (estimate results) results.length⟩ ∧
      semanticModeRespond estimate results =
        .oversize ⟨results.length, estimate results, MAX_RESPONSE_TOKENS,
          suggestedLimitFor (estimate results) results.length⟩ ∧
      (∀ other, filterModeRespond estimate results ≠ .data other) ∧
      (∀ other, semanticModeRespond estimate results ≠ .data other)) ∧
    suggestedLimitFor (estimate results) results.length =
      MAX_RESPONSE_TOKENS * results.length / estimate results := by
  have hform : ∀ t n : Nat, suggestedLimitFor t n = MAX_RESPONSE_TOKENS * n / t := by
    intro t n
    unfold suggestedLimitFor
    rw [div_div_eq_mul_div]
    have hcast : (MAX_RESPONSE_TOKENS : ℚ) * (n : ℚ) =
        ((MAX_RESPONSE_TOKENS * n : ℕ) : ℚ) := by
      push_cast
      ring
    rw [hcast, Nat.floor_div_eq_div]
  refine ⟨?_, ?_, hform _ _⟩
  · intro hle
    unfold filterModeRespond validateResponseSize semanticModeRespond
    dsimp only
    rw [if_pos hle, if_neg (by omega)]
    exact ⟨rfl, rfl⟩
  · intro hgt
    unfold filterModeRespond validateResponseSize semanticModeRespond
    dsimp only
    rw [if_neg (by omega), if_pos hgt]
    refine ⟨rfl, rfl, ?_, ?_⟩ <;> intro other hcontra <;>
      exact SearchResponse.noConfusion hcontra

/-- Witness for C8: a one-element result set estimated at 46000 tokens
is replaced by the diagnostic suggesting limit 0, and the same set
estimated at 10 tokens is returned as data. -/
theorem c8_witness :
    semanticModeRespond (fun _ => 46000) ([7] : List Nat) =
      .oversize ⟨1, 46000, 23000, 0⟩ ∧
    filterModeRespond (fun _ => 10) ([7] : List Nat) = .data [7] := by
  have h1 := (c8_response_budget Nat (fun _ => 46000) [7]).2.1 (by decide)
  have h2 := (c8_response_budget Nat (fun _ => 10) [7]).1 (by decide)
  refine ⟨?_, h2.1⟩
  rw [h1.2.1]
  have h3 : suggestedLimitFor 46000 [7].length = 0 := by
    rw [(c8_response_budget Nat (fun _ => 46000) [7]).2.2]
    decide
  rw [h3]
  rfl

lemma sentenceStep_trimmed (tok : String → Nat) (mx : Nat)
    (st : List String × String) (sen : String)
    (h : ∀ c ∈ st.1, jsTrim c = c) :
    ∀ c ∈ (sentenceStep tok mx st sen).1, jsTrim c = c := by
  unfold sentenceStep
  dsimp only
  by_cases hcond : tok (if st.2 ≠ "" then st.2 ++ " " ++
      (sen ++ if endsWithPunct sen = true then "" else ".")
    else sen ++ if endsWithPunct sen = true then "" else ".") > mx ∧ st.2 ≠ ""
  · rw [if_pos hcond]
    intro c hc
    rcases List.mem_append.mp hc with hm | hm
    · exact h c hm
    · rw [List.mem_singleton.mp hm]
      exact jsTrim_idem _
  · rw [if_neg hcond]
    exact h

lemma foldl_sentenceStep_trimmed (tok : String → Nat) (mx : Nat) :
    ∀ (l : List String) (st : List String × String),
      (∀ c ∈ st.1, jsTrim c = c) →
      ∀ c ∈ (l.foldl (sentenceStep tok mx) st).1, jsTrim c = c := by
  intro l
  induction l with
  | nil => intro st h; exact h
  | cons sen l ih =>
    intro st h
    rw [List.foldl_cons]
    exact ih _ (sentenceStep_trimmed tok mx st sen h)

lemma paraStep_trimmed (tok : String → Nat) (mx : Nat)
    (st : List String × String) (para : String)
    (h : ∀ c ∈ st.1, jsTrim c = c) :
    ∀ c ∈ (paraStep tok mx st para).1, jsTrim c = c := by
  unfold paraStep
  dsimp only
  have happend : ∀ c ∈ st.1 ++ [jsTrim st.2], jsTrim c = c := by
    intro c hc
    rcases List.mem_append.mp hc with hm | hm
    · exact h c hm
    · rw [List.mem_singleton.mp hm]
      exact jsTrim_idem _
  by_cases hcond : tok (if st.2 ≠ "" then st.2 ++ "\n\n" ++ para else para) > mx ∧
      st.2 ≠ ""
  · rw [if_pos hcond]
    exact happend
  · rw [if_neg hcond]
    by_cases hbig : tok para > mx
    · rw [if_pos hbig]
      refine foldl_sentenceStep_trimmed tok mx _ _ ?_
      by_cases hcc : st.2 ≠ ""
      · rw [if_pos hcc]
        exact happend
      · rw [if_neg hcc]
        exact h
    · rw [if_neg hbig]
      exact h

lemma foldl_paraStep_trimmed (tok : String → Nat) (mx : Nat) :
    ∀ (l : List String) (st : List String × String),
      (∀ c ∈ st.1, jsTrim c = c) →
      ∀ c ∈ (l.foldl (paraStep tok mx) st).1, jsTrim c = c := by
  intro l
  induction l with
  | nil => intro st h; exact h
  | cons para l ih =>
    intro st h
    rw [List.foldl_cons]
    exact ih _ (paraStep_trimmed tok mx st para h)

/-- Counterexample to C9 as stated: for a tokenizer under which the
two-character text fits in one chunk (as any tokenizer does for the
default limit of 6000), the chunker returns the non-empty input with its
leading whitespace intact, so a returned chunk is not trimmed although
the input text is not empty. -/
theorem c9_counterexample :
    chunkText (fun s => s.data.length) " a" 6000 = [" a"] ∧
    jsTrim " a" ≠ " a" ∧
    (" a" : String) ≠ "" := by
  refine ⟨rfl, ?_, by decide⟩
  decide

/-- C9 amended: the chunker is a pure total function; when the whole
text fits within maxTokens (the empty text included) it is returned
unchanged as a single chunk, not trimmed; only when the text exceeds
maxTokens is every returned chunk trimmed of surrounding whitespace and
non-empty. -/
theorem c9_chunk_contract (tok : String → Nat) (text : String)
    (maxTokens : Nat) :
    (tok text ≤ maxTokens → chunkText tok text maxTokens = [text]) ∧
    (maxTokens < tok text →
      ∀ c ∈ chunkText tok text maxTokens, jsTrim c = c ∧ c ≠ "") := by
  constructor
  · intro hle
    unfold chunkText
    rw [if_pos hle]
  · intro hgt c hc
    unfold chunkText at hc
    rw [if_neg (by omega)] at hc
    dsimp only at hc
    have hmem := List.mem_filter.mp hc
    have hlen : c.length > 0 := by simpa using hmem.2
    have hne : c ≠ "" := by
      intro hceq
      rw [hceq] at hlen
      simp [String.length] at hlen
    refine ⟨?_, hne⟩
    set r := (splitParagraphs text).foldl (paraStep tok maxTokens) ([], "") with hr
    have hbase : ∀ d ∈ ([] : List String), jsTrim d = d := by
      intro d hd
      exact absurd hd (List.not_mem_nil d)
    have htrimmed : ∀ d ∈ r.1, jsTrim d = d :=
      foldl_paraStep_trimmed tok maxTokens (splitParagraphs text) ([], "") hbase
    by_cases hc2 : r.2 ≠ ""
    · rw [if_pos hc2] at hmem
      rcases List.mem_append.mp hmem.1 with hm | hm
      · exact htrimmed c hm
      · rw [List.mem_singleton.mp hm]
        exact jsTrim_idem _
    · rw [if_neg hc2] at hmem
      exact htrimmed c hmem.1

/-- Witness for the amended C9: splitting a five-character text with a
one-token budget produces the single trimmed, punctuation-completed
non-empty chunk. -/
theorem c9_witness :
    jsTrim "ab cd." = "ab cd." ∧ ("ab cd." : String) ≠ "" :=
  (c9_chunk_contract (fun s => s.data.length) "ab cd" 1).2 (by decide)
    "ab cd." (by decide)

end TiddlyMcp
